import Mathlib

/-!
Shallow embedding of the jarvs RISC-V pipeline simulator (C++ sources) in
Lean 4, together with theorems checking claims C1 to C10 of its
natural-language specification against the code.  Machine words are modelled
as natural numbers (values are kept below 2 ^ 32 by the operations
themselves; reductions modulo 2 ^ 32 appear exactly where the C++ performs
32-bit wraparound).  C++ functions that can throw or assert are modelled in
the Except monad with unit errors.
-/

namespace Jarvs

/-- Word is a 32-bit machine word; we represent its value as a natural number. -/
abbrev Word := Nat

/-- utils.hpp nbytes: number of bytes occupied by a number of 32-bit words. -/
def nbytes (nwords : Nat) : Nat := nwords * 4

/-- utils.hpp isAligned: an address is aligned on an n-word boundary. -/
def isAligned (addr nwords : Nat) : Bool := addr % nbytes nwords == 0

/-- utils.hpp extractBits: mask out bits start..stop (inclusive) of a 32-bit
value and shift them down, exactly as the C++ mask-and-shift does. -/
def extractBits (val : Nat) (start stop : Nat) : Nat :=
  (val &&& (((1 <<< (stop - start + 1)) - 1) <<< start)) >>> start

/-- processor.cpp signExtend<B>: interpret the low B bits of a value as a
B-bit two's-complement integer (the C++ uses a signed bitfield). -/
def signExtend (b : Nat) (x : Nat) : Int :=
  let y := x % 2 ^ b
  if y < 2 ^ (b - 1) then (y : Int) else (y : Int) - 2 ^ b

/-- Conversion of a signed 32-bit value to the Word stored in a signal
(int32_t to uint32_t wraparound, then bit-preserving Word construction). -/
def toWord32 (i : Int) : Word := (i % (2 ^ 32 : Int)).toNat

/-- Conversion of a C++ bool driven onto a Word signal. -/
def boolToWord (b : Bool) : Word := if b then 1 else 0

/-- processor.cpp opcode: bits 0..6 of an instruction. -/
def opcode (instruction : Word) : Nat := extractBits instruction 0 6

/-- processor.cpp isNop: the all-zeros instruction is the NOP. -/
def isNop (instruction : Word) : Bool := instruction == 0

/-- Instruction formats of processor.cpp (__ProcessorUtils::InstructionFmt). -/
inductive InstructionFmt where
  | R | I | S | SB | U | UJ
deriving DecidableEq, Repr

/-- Format opcodes fixed in processor.cpp. -/
def RFmtOpcode : Nat := 0b0110011
def aluIFmtOpcode : Nat := 0b0010011
def loadIFmtOpcode : Nat := 0b0000011
def jalrIFmtOpcode : Nat := 0b1100111
def SFmtOpcode : Nat := 0b0100011
def SBFmtOpcode : Nat := 0b1100011
def UFmtOpcode : Nat := 0b0110111
def UJFmtOpcode : Nat := 0b1101111

/-- processor.cpp fmt: dispatch an opcode to its instruction format; an
unknown opcode throws std::invalid_argument, modelled as an error. -/
def fmt (op : Nat) : Except Unit InstructionFmt :=
  if op = RFmtOpcode then .ok .R
  else if op = aluIFmtOpcode then .ok .I
  else if op = loadIFmtOpcode then .ok .I
  else if op = jalrIFmtOpcode then .ok .I
  else if op = SFmtOpcode then .ok .S
  else if op = SBFmtOpcode then .ok .SB
  else if op = UFmtOpcode then .ok .U
  else if op = UJFmtOpcode then .ok .UJ
  else .error ()

/-- RegisterFile (processor.hpp) for the integer registers: an array of 32
words, zero-initialised by the constructor. -/
structure RegisterFile where
  regs : List Word
deriving DecidableEq, Repr

/-- RegisterFile constructor: all 32 registers zero-initialised. -/
def RegisterFile.init : RegisterFile := ⟨List.replicate 32 0⟩

/-- RegisterFile::readRegister: out-of-range register numbers throw. -/
def RegisterFile.readRegister (rf : RegisterFile) (regNum : Nat) : Except Unit Word :=
  if 32 ≤ regNum then .error ()
  else .ok (rf.regs.getD regNum 0)

/-- RegisterFile::writeRegister for the integer register file: out-of-range
register numbers throw, and writes to register 0 are silently discarded. -/
def RegisterFile.writeRegister (rf : RegisterFile) (regNum : Nat) (value : Word) :
    Except Unit RegisterFile :=
  if 32 ≤ regNum then .error ()
  else if regNum = 0 then .ok rf
  else .ok ⟨rf.regs.set regNum value⟩

/-- Iterated RegisterFile::writeRegister over a sequence of (index, value)
pairs; a throw anywhere aborts the sequence. -/
def RegisterFile.applyWrites (rf : RegisterFile) : List (Nat × Word) → Except Unit RegisterFile
  | [] => .ok rf
  | (n, v) :: ws =>
    match rf.writeRegister n v with
    | .error e => .error e
    | .ok rf1 => rf1.applyWrites ws

/-- Nine control outputs of the ControlUnit (processor.hpp). -/
structure ControlSignals where
  ctrlRegWrite : Word
  ctrlAluSrc : Word
  ctrlAluOp : Word
  ctrlMemWrite : Word
  ctrlMemRead : Word
  ctrlMemToReg : Word
  ctrlBranch : Word
  ctrlUseRegBase : Word
  ctrlIsJump : Word
deriving DecidableEq, Repr

/-- ControlUnit::operate (processor.cpp lines 119..158): on NOP it drives six
control outputs to 0 and returns; otherwise it decodes the format and drives
all nine outputs, and on a jump with a non-zero destination register it
immediately writes the link address pc + 4 into the integer register file. -/
def controlUnitOperate (instruction pc writeRegister : Word)
    (out : ControlSignals) (intRegs : RegisterFile) :
    Except Unit (ControlSignals × RegisterFile) :=
  if isNop instruction then
    .ok ({ out with
            ctrlRegWrite := 0, ctrlMemWrite := 0, ctrlMemRead := 0,
            ctrlBranch := 0, ctrlUseRegBase := 0, ctrlIsJump := 0 },
         intRegs)
  else
    match fmt (opcode instruction) with
    | .error e => .error e
    | .ok f =>
      let isR := f == InstructionFmt.R
      let isAluI := opcode instruction == aluIFmtOpcode
      let isLoad := opcode instruction == loadIFmtOpcode
      let isStore := f == InstructionFmt.S
      let isCondBranch := f == InstructionFmt.SB
      let isJalr := opcode instruction == jalrIFmtOpcode
      let isJal := f == InstructionFmt.UJ
      let isJump := isJalr || isJal
      let out1 : ControlSignals :=
        { ctrlRegWrite := boolToWord (isR || isLoad || isAluI)
          ctrlAluSrc := boolToWord (isLoad || isStore || isAluI)
          ctrlAluOp := if isCondBranch then 0b01 else if isR || isAluI then 0b10 else 0b00
          ctrlMemWrite := boolToWord isStore
          ctrlMemRead := boolToWord isLoad
          ctrlMemToReg := boolToWord isLoad
          ctrlBranch := boolToWord isCondBranch
          ctrlUseRegBase := boolToWord isJalr
          ctrlIsJump := boolToWord isJump }
      if isJump ∧ writeRegister ≠ 0 then
        match intRegs.writeRegister writeRegister ((pc + 4) % 2 ^ 32) with
        | .error e => .error e
        | .ok regs1 => .ok (out1, regs1)
      else .ok (out1, intRegs)

/-- ImmediateGenerator::operate (processor.cpp lines 173..206): NOP leaves
the immediate output unchanged, otherwise dispatch on the instruction format;
R-format instructions also leave the output unchanged. -/
def immediateGeneratorOperate (instruction : Word) (immediate : Word) : Except Unit Word :=
  if isNop instruction then .ok immediate
  else
    match fmt (opcode instruction) with
    | .error e => .error e
    | .ok InstructionFmt.I =>
      .ok (toWord32 (signExtend 12 (extractBits instruction 20 31)))
    | .ok InstructionFmt.S | .ok InstructionFmt.SB =>
      let immLow := extractBits instruction 7 11
      let immHigh := extractBits instruction 25 31
      .ok (toWord32 (signExtend 12 ((immHigh <<< 5) + immLow)))
    | .ok InstructionFmt.U =>
      .ok (toWord32 (Int.ofNat (extractBits instruction 12 31 <<< 12)))
    | .ok InstructionFmt.UJ =>
      .ok (toWord32 (signExtend 20 (extractBits instruction 12 31)))
    | .ok InstructionFmt.R => .ok immediate

/-- Input signals read by RegisterFileUnit::operate, together with the owned
integer register file. -/
structure RegisterFileUnitState where
  readRegister1 : Word
  readRegister2 : Word
  writeRegister : Word
  writeData : Word
  ctrlRegWrite : Word
  intRegs : RegisterFile
deriving Repr

/-- Outputs driven by RegisterFileUnit::operate and the updated register file. -/
structure RegisterFileUnitOut where
  readData1 : Word
  readData2 : Word
  intRegs : RegisterFile
deriving DecidableEq, Repr

/-- RegisterFileUnit::operate (processor.cpp lines 160..167): when the write
control is asserted the write completes first, then both reads are driven. -/
def registerFileUnitOperate (s : RegisterFileUnitState) : Except Unit RegisterFileUnitOut :=
  match (if s.ctrlRegWrite ≠ 0
         then s.intRegs.writeRegister s.writeRegister s.writeData
         else .ok s.intRegs) with
  | .error e => .error e
  | .ok regs =>
    match regs.readRegister s.readRegister1 with
    | .error e => .error e
    | .ok d1 =>
      match regs.readRegister s.readRegister2 with
      | .error e => .error e
      | .ok d2 => .ok ⟨d1, d2, regs⟩

/-- Input signals and pipeline-register back-references read by
DataHazardDetectionUnit (processor.cpp lines 491..517). -/
structure DataHazardInputs where
  isForwarding : Bool
  IF_ID_instructionIn : Word
  ID_EX_ctrlMemReadIn : Word
  ID_EX_ctrlRegWriteIn : Word
  ID_EX_writeRegisterIn : Word
  EX_MEM_ctrlRegWriteIn : Word
  EX_MEM_writeRegisterIn : Word
deriving Repr

/-- DataHazardDetectionUnit::hasDataHazard: with forwarding only the load-use
hazard stalls, without forwarding any RAW dependence on ID/EX or EX/MEM with
RegWrite set and a non-zero destination register stalls. -/
def hasDataHazard (u : DataHazardInputs) (rs1 rs2 : Nat) : Bool :=
  if u.isForwarding then
    !(u.ID_EX_ctrlMemReadIn == 0) &&
      (rs1 == u.ID_EX_writeRegisterIn || rs2 == u.ID_EX_writeRegisterIn)
  else
    (!(u.ID_EX_ctrlRegWriteIn == 0) && !(u.ID_EX_writeRegisterIn == 0) &&
      (rs1 == u.ID_EX_writeRegisterIn || rs2 == u.ID_EX_writeRegisterIn)) ||
    (!(u.EX_MEM_ctrlRegWriteIn == 0) && !(u.EX_MEM_writeRegisterIn == 0) &&
      (rs1 == u.EX_MEM_writeRegisterIn || rs2 == u.EX_MEM_writeRegisterIn))

/-- DataHazardDetectionUnit::operate: read rs1/rs2 from the IF/ID instruction
input and drive shouldFreezeIssue and shouldFlushIF_ID with the stall bit.
The result is the pair (shouldFreezeIssue, shouldFlushIF_ID). -/
def dataHazardDetectionOperate (u : DataHazardInputs) : Word × Word :=
  let instruction := u.IF_ID_instructionIn
  let shouldStall :=
    hasDataHazard u (extractBits instruction 15 19) (extractBits instruction 20 24)
  (boolToWord shouldStall, boolToWord shouldStall)

/-- Identifiers for the clocked units that PipelinedProcessor::registerUnits
registers (processor.cpp lines 534..554). -/
inductive UnitId where
  | EX_MEM | dataMemory | ID_EX | IF_ID | issueUnit | MEM_WB
  | hazardDetectionUnit | memHazardUnit | forwardingUnit
deriving DecidableEq, Repr

/-- Processor (processor.hpp): the three ordered unit lists traversed by
executeOneCycle, plus the clock counter. -/
structure Processor where
  syncedUnits : List UnitId
  bufferedUnits : List UnitId
  priorityUnits : List UnitId
  clockCycle : Nat
deriving DecidableEq, Repr

/-- PipelinedProcessor::registerUnits (processor.cpp lines 534..554): the
exact sequence of push_back calls into syncedUnits and bufferedUnits; nothing
is ever pushed into priorityUnits. -/
def registerUnits (useForwarding : Bool) : Processor :=
  { syncedUnits :=
      [UnitId.EX_MEM, UnitId.dataMemory, UnitId.ID_EX, UnitId.IF_ID,
       UnitId.issueUnit, UnitId.MEM_WB,
       UnitId.hazardDetectionUnit, UnitId.memHazardUnit] ++
      (if useForwarding then [UnitId.forwardingUnit] else [])
    bufferedUnits := [UnitId.MEM_WB, UnitId.issueUnit]
    priorityUnits := []
    clockCycle := 0 }

/-- One scheduling event inside Processor::executeOneCycle: an operate call
or a bufferInputs call on a unit. -/
inductive PhaseEvent where
  | operate (u : UnitId)
  | bufferInputs (u : UnitId)
deriving DecidableEq, Repr

/-- Processor::executeOneCycle (processor.hpp lines 542..553): the ordered
trace of unit calls in one cycle: operate on every priority unit, then
bufferInputs on every buffered unit, then operate on every synced unit, each
list in declaration (registration) order. -/
def executeOneCycleTrace (p : Processor) : List PhaseEvent :=
  p.priorityUnits.map PhaseEvent.operate ++
  p.bufferedUnits.map PhaseEvent.bufferInputs ++
  p.syncedUnits.map PhaseEvent.operate

/-- Memory state machine of a TimedMemory (memory.hpp). -/
inductive MemoryState where
  | Ready | Reading | Writing
deriving DecidableEq, Repr

/-- Block::getSubblock (part_009 lines 30..35): extract len words starting at
index from; the bounds assertion is modelled by returning none. -/
def getSubblock? (words : List Word) (from_ len : Nat) : Option (List Word) :=
  if from_ + len ≤ words.length then some ((words.drop from_).take len) else none

/-- Block::setSubblock (part_009 lines 37..40): overwrite the words starting
at index from with the given block; the bounds assertion is modelled by
returning none. -/
def setSubblock? (words : List Word) (from_ : Nat) (block : List Word) : Option (List Word) :=
  if from_ + block.length ≤ words.length then
    some (words.take from_ ++ block ++ words.drop (from_ + block.length))
  else none

/-- Suspended state of the coroutine created by TimedMainMemory::makeReadGen:
the captured request and the number of resumes performed so far. -/
structure MainReadGen where
  addr : Nat
  blockSize : Nat
  resumed : Nat
deriving DecidableEq, Repr

/-- Suspended state of the coroutine created by TimedMainMemory::makeWriteGen. -/
structure MainWriteGen where
  addr : Nat
  block : List Word
  resumed : Nat
deriving DecidableEq, Repr

/-- TimedMainMemory (declared in memory.hpp, defined in part_009): address
space, per-operation latency, word storage, and the TimedMemory base-class
state machine fields (state, curAddr and the optional suspended generators). -/
structure TimedMainMemory where
  addressSpace : Nat
  latency : Nat
  storage : List Word
  state : MemoryState
  curAddr : Nat
  readGen : Option MainReadGen
  writeGen : Option MainWriteGen
deriving DecidableEq, Repr

/-- TimedMainMemory constructor (part_009 lines 96..100): storage of
2 ^ (addressSpace - 2) words, zero-initialised, starting Ready. -/
def TimedMainMemory.make (addressSpace latency : Nat) : TimedMainMemory :=
  { addressSpace := addressSpace
    latency := latency
    storage := List.replicate (2 ^ (addressSpace - 2)) 0
    state := MemoryState.Ready
    curAddr := 0
    readGen := none
    writeGen := none }

/-- TimedMainMemory::makeReadGen (part_009 lines 102..109): the coroutine
asserts alignment and bounds when first resumed; since the first resume
happens inside the same readBlock call that creates the generator, the checks
are modelled at creation. -/
def TimedMainMemory.makeReadGen (m : TimedMainMemory) (addr blockSize : Nat) :
    Except Unit MainReadGen :=
  if isAligned addr blockSize ∧ addr + nbytes blockSize ≤ 2 ^ m.addressSpace then
    .ok ⟨addr, blockSize, 0⟩
  else .error ()

/-- TimedMainMemory::makeWriteGen (part_009 lines 111..119), asserts modelled
as for makeReadGen. -/
def TimedMainMemory.makeWriteGen (m : TimedMainMemory) (addr : Nat) (block : List Word) :
    Except Unit MainWriteGen :=
  if isAligned addr block.length ∧ addr + nbytes block.length ≤ 2 ^ m.addressSpace then
    .ok ⟨addr, block, 0⟩
  else .error ()

/-- One resume of the makeReadGen coroutine body: the loop yields nullopt for
cycles 1 .. latency - 1 and then yields the requested sub-block of storage. -/
def MainReadGen.resume (g : MainReadGen) (latency : Nat) (storage : List Word) :
    Except Unit (Option (List Word) × MainReadGen) :=
  if g.resumed + 1 < latency then
    .ok (none, { g with resumed := g.resumed + 1 })
  else
    match getSubblock? storage (g.addr >>> 2) g.blockSize with
    | some b => .ok (some b, { g with resumed := g.resumed + 1 })
    | none => .error ()

/-- One resume of the makeWriteGen coroutine body: yields false for cycles
1 .. latency - 1, then stores the block into storage and yields true. -/
def MainWriteGen.resume (g : MainWriteGen) (latency : Nat) (storage : List Word) :
    Except Unit (Bool × List Word × MainWriteGen) :=
  if g.resumed + 1 < latency then
    .ok (false, storage, { g with resumed := g.resumed + 1 })
  else
    match setSubblock? storage (g.addr >>> 2) g.block with
    | some st => .ok (true, st, { g with resumed := g.resumed + 1 })
    | none => .error ()

/-- TimedMemory::readBlock (part_009 lines 47..60) instantiated for
TimedMainMemory: assert not Writing; assert Ready or the same address as the
in-flight request; create the generator when Ready; record curAddr; resume
the generator once; transition back to Ready when a block is delivered. -/
def TimedMainMemory.readBlock (m : TimedMainMemory) (addr blockSize : Nat) :
    Except Unit (Option (List Word) × TimedMainMemory) :=
  if m.state = MemoryState.Writing then .error ()
  else if m.state = MemoryState.Ready ∨ m.curAddr = addr then
    match (if m.state = MemoryState.Ready then m.makeReadGen addr blockSize
           else match m.readGen with
                | some g => Except.ok g
                | none => Except.error ()) with
    | .error e => .error e
    | .ok g0 =>
      let m1 : TimedMainMemory :=
        { m with
            state := if m.state = MemoryState.Ready then MemoryState.Reading else m.state
            curAddr := addr }
      match g0.resume m1.latency m1.storage with
      | .error e => .error e
      | .ok (result, g1) =>
        let m2 := { m1 with readGen := some g1 }
        if result.isSome then .ok (result, { m2 with state := MemoryState.Ready })
        else .ok (result, m2)
  else .error ()

/-- TimedMemory::writeBlock (part_009 lines 62..75) instantiated for
TimedMainMemory. -/
def TimedMainMemory.writeBlock (m : TimedMainMemory) (addr : Nat) (block : List Word) :
    Except Unit (Bool × TimedMainMemory) :=
  if m.state = MemoryState.Reading then .error ()
  else if m.state = MemoryState.Ready ∨ m.curAddr = addr then
    match (if m.state = MemoryState.Ready then m.makeWriteGen addr block
           else match m.writeGen with
                | some g => Except.ok g
                | none => Except.error ()) with
    | .error e => .error e
    | .ok g0 =>
      let m1 : TimedMainMemory :=
        { m with
            state := if m.state = MemoryState.Ready then MemoryState.Writing else m.state
            curAddr := addr }
      match g0.resume m1.latency m1.storage with
      | .error e => .error e
      | .ok (result, storage1, g1) =>
        let m2 := { m1 with writeGen := some g1, storage := storage1 }
        if result then .ok (result, { m2 with state := MemoryState.Ready })
        else .ok (result, m2)
  else .error ()

/-- Result of the (k + 1)-st call in a sequence of identical readBlock calls,
each call resuming from the memory state left by the previous one. -/
def readCallN (m : TimedMainMemory) (addr blockSize : Nat) :
    Nat → Except Unit (Option (List Word) × TimedMainMemory)
  | 0 => m.readBlock addr blockSize
  | k + 1 =>
    match readCallN m addr blockSize k with
    | .error e => .error e
    | .ok (_, m1) => m1.readBlock addr blockSize

/-- Result of the (k + 1)-st call in a sequence of identical writeBlock calls. -/
def writeCallN (m : TimedMainMemory) (addr : Nat) (block : List Word) :
    Nat → Except Unit (Bool × TimedMainMemory)
  | 0 => m.writeBlock addr block
  | k + 1 =>
    match writeCallN m addr block k with
    | .error e => .error e
    | .ok (_, m1) => m1.writeBlock addr block

/-- Cache write schemes (memory.hpp). -/
inductive WriteScheme where
  | WriteThrough | WriteBack
deriving DecidableEq, Repr

/-- Cache replacement policies (memory.hpp). -/
inductive ReplacementPolicy where
  | Random | PreciseLRU | ApproximateLRU
deriving DecidableEq, Repr

/-- TimedCache::Entry: validity and dirty flags, tag, cached line and the
access stamp used by precise LRU. -/
structure CacheEntry where
  valid : Bool
  dirty : Bool
  tag : Nat
  block : List Word
  lastAccessedTime : Nat
deriving DecidableEq, Repr

instance : Inhabited CacheEntry := ⟨⟨false, false, 0, [], 0⟩⟩

/-- TimedCache configuration and mutable state (declared in memory.hpp,
defined in part_009): sizes, scheme, policy, latency, the entry array, the
per-set approximate-LRU bit trees and the precise-LRU access counter. -/
structure TimedCache where
  blockSize : Nat
  setSize : Nat
  cacheSize : Nat
  scheme : WriteScheme
  policy : ReplacementPolicy
  latency : Nat
  entries : List CacheEntry
  lruBits : List (List Bool)
  totalAccessCount : Nat
deriving DecidableEq, Repr

/-- Bit-by-bit scan for std::countr_zero, fuelled by the remaining bit width. -/
def ctzGo : Nat → Nat → Nat
  | 0, _ => 0
  | fuel + 1, n => if n % 2 = 1 then 0 else ctzGo fuel (n / 2) + 1

/-- Number of trailing zero bits (std::countr_zero on a 64-bit size_t; the
all-zeros input yields the bit width 64). -/
def ctz (n : Nat) : Nat := ctzGo 64 n

/-- TimedCache::blockBitCount. -/
def TimedCache.blockBitCount (c : TimedCache) : Nat := ctz c.blockSize

/-- TimedCache::setBitCount. -/
def TimedCache.setBitCount (c : TimedCache) : Nat := ctz c.setSize

/-- TimedCache::indexBitCount. -/
def TimedCache.indexBitCount (c : TimedCache) : Nat := ctz c.cacheSize - c.setBitCount

/-- TimedCache::tagBits. -/
def TimedCache.tagBits (c : TimedCache) (addr : Nat) : Nat :=
  addr >>> (c.indexBitCount + c.blockBitCount + 2)

/-- TimedCache::indexBits. -/
def TimedCache.indexBits (c : TimedCache) (addr : Nat) : Nat :=
  (addr >>> (c.blockBitCount + 2)) &&& ((1 <<< c.indexBitCount) - 1)

/-- TimedCache::findCacheEntry (part_009 lines 278..289): linear search of
the set for the first valid entry with a matching tag. -/
def TimedCache.findCacheEntry (c : TimedCache) (addr : Nat) : Option Nat :=
  let tag := c.tagBits addr
  let startingEntryIdx := c.indexBits addr * c.setSize
  ((List.range c.setSize).find? fun offset =>
      let e := c.entries.getD (startingEntryIdx + offset) default
      e.valid && e.tag == tag).map
    fun offset => startingEntryIdx + offset

/-- The std::find_if over the set for an invalid (free) entry used on a read
miss (part_009 lines 169..174); returns the first free absolute index. -/
def TimedCache.freeSlot (c : TimedCache) (setIdx : Nat) : Option Nat :=
  let startingEntryIdx := setIdx * c.setSize
  ((List.range c.setSize).find? fun offset =>
      !(c.entries.getD (startingEntryIdx + offset) default).valid).map
    fun offset => startingEntryIdx + offset

/-- The std::min_element scan over lastAccessedTime used by precise LRU
(part_009 lines 181..187): first entry with the smallest stamp; the result is
an absolute entry index. -/
def minTimeIdx (entries : List CacheEntry) (best : Nat) (i : Nat) : Nat → Nat
  | 0 => best
  | k + 1 =>
    if (entries.getD i default).lastAccessedTime
        < (entries.getD best default).lastAccessedTime
    then minTimeIdx entries i (i + 1) k
    else minTimeIdx entries best (i + 1) k

/-- The approximate-LRU descent (part_009 lines 189..195): walk the per-set
bit tree taking the complement of each bit. -/
def lruDescend (row : List Bool) (lruEntryIdx lruBit : Nat) : Nat → Nat
  | 0 => lruEntryIdx
  | k + 1 =>
    let choice := !(row.getD lruBit false)
    lruDescend row (2 * lruEntryIdx + (if choice then 1 else 0))
      (2 * lruBit + 1 + (if choice then 1 else 0)) k

/-- TimedCache selectEvictionIndex (the lambda in part_009 lines 179..199),
with the rand() draw of the Random policy supplied as the oracle r
(randInt(lo, hi) = lo + rand() % (hi - lo + 1)). -/
def TimedCache.selectEvictionIndex (c : TimedCache) (setIdx startingEntryIdx r : Nat) : Nat :=
  match c.policy with
  | ReplacementPolicy.PreciseLRU =>
    minTimeIdx c.entries startingEntryIdx (startingEntryIdx + 1) (c.setSize - 1)
  | ReplacementPolicy.ApproximateLRU =>
    lruDescend (c.lruBits.getD setIdx []) 0 0 c.setBitCount + startingEntryIdx
  | ReplacementPolicy.Random =>
    startingEntryIdx + r % c.setSize

/-- The ascending write walk of updateLRUInfo for approximate LRU (part_009
lines 296..301); k counts the remaining iterations, so the bit index being
written is k - 1 down to 0. -/
def lruRecord (row : List Bool) (localBlockIdx lruBit : Nat) : Nat → List Bool
  | 0 => row
  | k + 1 =>
    let b := (localBlockIdx >>> k) % 2 == 1
    lruRecord (row.set lruBit b) localBlockIdx
      (2 * lruBit + 1 + (if b then 1 else 0)) k

/-- TimedCache::updateLRUInfo (part_009 lines 291..303): precise LRU stamps
the entry with the post-incremented access counter; approximate LRU records
the accessed slot in the per-set bit tree; Random does nothing. -/
def TimedCache.updateLRUInfo (c : TimedCache) (entryIdx addr localBlockIdx : Nat) : TimedCache :=
  match c.policy with
  | ReplacementPolicy.PreciseLRU =>
    let e := c.entries.getD entryIdx default
    { c with
        entries := c.entries.set entryIdx { e with lastAccessedTime := c.totalAccessCount }
        totalAccessCount := c.totalAccessCount + 1 }
  | ReplacementPolicy.ApproximateLRU =>
    let setIdx := c.indexBits addr
    { c with
        lruBits := c.lruBits.set setIdx
          (lruRecord (c.lruBits.getD setIdx []) localBlockIdx 0 c.setBitCount) }
  | ReplacementPolicy.Random => c

/-- Run of a lower-memory (TimedMainMemory) writeBlock from Ready to
completion, as performed by the retry loops inside the cache generators: the
result is the number of calls consumed (= latency) and the updated memory. -/
def lowerWriteRun (low : TimedMainMemory) (addr : Nat) (block : List Word) :
    Except Unit (Nat × TimedMainMemory) :=
  if isAligned addr block.length ∧ addr + nbytes block.length ≤ 2 ^ low.addressSpace then
    match setSubblock? low.storage (addr >>> 2) block with
    | some st => .ok (low.latency, { low with storage := st })
    | none => .error ()
  else .error ()

/-- Run of a lower-memory (TimedMainMemory) readBlock from Ready to
completion: the number of calls consumed (= latency) and the block read. -/
def lowerReadRun (low : TimedMainMemory) (addr blockSize : Nat) :
    Except Unit (Nat × List Word) :=
  if isAligned addr blockSize ∧ addr + nbytes blockSize ≤ 2 ^ low.addressSpace then
    match getSubblock? low.storage (addr >>> 2) blockSize with
    | some b => .ok (low.latency, b)
    | none => .error ()
  else .error ()

/-- Result of running a TimedCache read generator to completion: the values
yielded cycle by cycle, the final cache and lower memory, and the log of
writeBlock requests issued to the lower memory. -/
structure CacheReadResult where
  yields : List (Option (List Word))
  cache : TimedCache
  low : TimedMainMemory
  lowWrites : List (Nat × List Word)
deriving DecidableEq, Repr

/-- Result of running a TimedCache write generator to completion. -/
structure CacheWriteResult where
  yields : List Bool
  cache : TimedCache
  low : TimedMainMemory
  lowWrites : List (Nat × List Word)
deriving DecidableEq, Repr

/-- Tail of TimedCache::makeReadGen (part_009 lines 231..235): extract the
requested sub-block from the (now valid) entry, update the LRU metadata and
yield the block. -/
def cacheReadFinish (c : TimedCache) (low : TimedMainMemory)
    (yields : List (Option (List Word))) (lowWrites : List (Nat × List Word))
    (entryIdx addr readBlockSize : Nat) : Except Unit CacheReadResult :=
  let e := c.entries.getD entryIdx default
  let blockOffset := addr % nbytes c.blockSize
  match getSubblock? e.block (blockOffset >>> 2) readBlockSize with
  | none => .error ()
  | some requestedBlock =>
    .ok ⟨yields ++ [some requestedBlock],
         c.updateLRUInfo entryIdx addr (entryIdx % c.setSize), low, lowWrites⟩

/-- Victim choice on a read miss (part_009 lines 168..218): prefer the first
free slot; otherwise apply the replacement policy, and under WriteBack write
a dirty victim back to the lower memory first (yielding nullopt on every
incomplete lower write call).  Returns the chosen entry index, the updated
lower memory, the yields so far and the lower-memory write log. -/
def cacheChooseVictim (c : TimedCache) (low : TimedMainMemory) (r setIdx : Nat)
    (yields : List (Option (List Word))) :
    Except Unit (Nat × TimedMainMemory × List (Option (List Word)) × List (Nat × List Word)) :=
  let startingEntryIdx := setIdx * c.setSize
  match c.freeSlot setIdx with
  | some freeIdx => .ok (freeIdx, low, yields, [])
  | none =>
    let evictedIdx := c.selectEvictionIndex setIdx startingEntryIdx r
    let ev := c.entries.getD evictedIdx default
    if c.scheme = WriteScheme.WriteBack ∧ ev.dirty then
      let evictedIndexBits := evictedIdx / c.setSize
      let indexOffset := c.blockBitCount + 2
      let tagOffset := indexOffset + c.indexBitCount
      let evictedAddr := (ev.tag <<< tagOffset) ||| (evictedIndexBits <<< indexOffset)
      match lowerWriteRun low evictedAddr ev.block with
      | .error e => .error e
      | .ok (calls, low1) =>
        .ok (evictedIdx, low1, yields ++ List.replicate (calls - 1) none,
             [(evictedAddr, ev.block)])
    else .ok (evictedIdx, low, yields, [])

/-- TimedCache::makeReadGen (part_009 lines 155..236) run to completion: wait
latency - 1 cycles, then hit or miss handling (victim choice, possible dirty
write-back, refill from the lower memory yielding nullopt on every refill
call) followed by the common finish. -/
def cacheMakeReadRun (c : TimedCache) (low : TimedMainMemory) (r addr readBlockSize : Nat) :
    Except Unit CacheReadResult :=
  if c.blockSize % readBlockSize = 0 ∧ isAligned addr readBlockSize then
    let waits : List (Option (List Word)) := List.replicate (c.latency - 1) none
    let tag := c.tagBits addr
    let setIdx := c.indexBits addr
    match c.findCacheEntry addr with
    | some entryIdx => cacheReadFinish c low waits [] entryIdx addr readBlockSize
    | none =>
      match cacheChooseVictim c low r setIdx waits with
      | .error e => .error e
      | .ok (entryIdx, low1, yields1, lowWrites1) =>
        let startingAddr := addr / nbytes c.blockSize * nbytes c.blockSize
        match lowerReadRun low1 startingAddr c.blockSize with
        | .error e => .error e
        | .ok (calls, blk) =>
          let e0 := c.entries.getD entryIdx default
          let e1 := { e0 with valid := true, dirty := false, tag := tag, block := blk }
          let c1 := { c with entries := c.entries.set entryIdx e1 }
          cacheReadFinish c1 low1 (yields1 ++ List.replicate calls none) lowWrites1
            entryIdx addr readBlockSize
  else .error ()

/-- TimedCache::makeWriteGen (part_009 lines 238..276) run to completion:
wait latency - 1 cycles; under WriteBack a miss first runs the read generator
to install the line (yielding false while it is incomplete); a present entry
is patched and marked dirty; under WriteThrough the block is unconditionally
written to the lower memory; finally yield true. -/
def cacheMakeWriteRun (c : TimedCache) (low : TimedMainMemory) (r addr : Nat)
    (block : List Word) : Except Unit CacheWriteResult :=
  if c.blockSize % block.length = 0 ∧ isAligned addr block.length then
    let waits : List Bool := List.replicate (c.latency - 1) false
    match (if c.scheme = WriteScheme.WriteBack ∧ c.findCacheEntry addr = none then
        match cacheMakeReadRun c low r addr c.blockSize with
        | .error e => Except.error e
        | .ok res =>
          match res.cache.findCacheEntry addr with
          | none => Except.error ()
          | some i =>
            Except.ok (res.cache, res.low,
                 waits ++ List.replicate (res.yields.length - 1) false, res.lowWrites, some i)
      else Except.ok (c, low, waits, ([] : List (Nat × List Word)), c.findCacheEntry addr)) with
    | .error e => .error e
    | .ok (c1, low1, yields1, lowWrites1, entryIdx?) =>
      match (match entryIdx? with
        | some i =>
          let e := c1.entries.getD i default
          match setSubblock? e.block ((addr % nbytes c1.blockSize) >>> 2) block with
          | none => Except.error ()
          | some nb =>
            let patched := { e with block := nb, dirty := true }
            Except.ok (TimedCache.updateLRUInfo
              ({ c1 with entries := c1.entries.set i patched }) i addr (i % c1.setSize))
        | none => Except.ok c1) with
      | .error e => .error e
      | .ok c2 =>
        match (if c.scheme = WriteScheme.WriteThrough then
            match lowerWriteRun low1 addr block with
            | .error e => Except.error e
            | .ok (calls, low2) =>
              Except.ok (low2, yields1 ++ List.replicate (calls - 1) false,
                         lowWrites1 ++ [(addr, block)])
          else Except.ok (low1, yields1, lowWrites1)) with
        | .error e => .error e
        | .ok (low2, yields2, lowWrites2) => .ok ⟨yields2 ++ [true], c2, low2, lowWrites2⟩
  else .error ()

/-! Helper lemmas. -/

theorem getD_set_self (l : List Word) (n v : Nat) (h : n < l.length) :
    (l.set n v).getD n 0 = v := by
  induction l generalizing n with
  | nil => simp at h
  | cons a l ih =>
    cases n with
    | zero => simp [List.set]
    | succ n =>
      simp only [List.set, List.getD_cons_succ]
      exact ih n (by simpa using h)

theorem getD_set_ne (l : List Word) (n m v : Nat) (h : n ≠ m) :
    (l.set n v).getD m 0 = l.getD m 0 := by
  induction l generalizing n m with
  | nil => simp [List.set]
  | cons a l ih =>
    cases n with
    | zero =>
      cases m with
      | zero => exact absurd rfl h
      | succ m => simp [List.set]
    | succ n =>
      cases m with
      | zero => simp [List.set]
      | succ m =>
        simp only [List.set, List.getD_cons_succ]
        exact ih n m (by omega)

theorem lor_shiftLeft_eq_add : ∀ (k a b : Nat), b < 2 ^ k → (a <<< k) ||| b = a <<< k + b := by
  intro k
  induction k with
  | zero =>
    intro a b hb
    interval_cases b
    simp
  | succ k ih =>
    intro a b hb
    have hdecomp : b = Nat.bit b.bodd b.div2 := (Nat.bit_decomp b).symm
    have hshift : a <<< (k + 1) = Nat.bit false (a <<< k) := by
      simp [Nat.shiftLeft_succ, Nat.bit]
    have hdiv : b.div2 < 2 ^ k := by
      simp only [Nat.div2_val]
      omega
    rw [hdecomp, hshift, Nat.lor_bit]
    rw [ih a b.div2 hdiv]
    cases hB : b.bodd <;> simp [Nat.bit, hB] <;> simp [Nat.div2_val] <;> omega

theorem extractBits_eq (v s e : Nat) : extractBits v s e = (v >>> s) % 2 ^ (e - s + 1) := by
  unfold extractBits
  apply Nat.eq_of_testBit_eq
  intro i
  simp only [Nat.testBit_shiftRight, Nat.testBit_and, Nat.testBit_shiftLeft,
    Nat.testBit_mod_two_pow, Nat.one_shiftLeft, Nat.testBit_two_pow_sub_one]
  have h1 : s ≤ s + i := Nat.le_add_right s i
  simp only [h1, Nat.add_sub_cancel_left, ge_iff_le, decide_True, Bool.true_and]
  rw [Bool.and_comm]

theorem extractBits_lt (v s e : Nat) : extractBits v s e < 2 ^ (e - s + 1) := by
  rw [extractBits_eq]
  exact Nat.mod_lt _ (Nat.pos_pow_of_pos _ (by omega))

/-! Claim C1: ControlUnit NOP behaviour. -/

/-- C1 counterexample input: previous-cycle control outputs that are all
nonzero, as left behind by an earlier non-NOP instruction. -/
def c1StaleSignals : ControlSignals := ⟨1, 1, 2, 1, 1, 1, 1, 1, 1⟩

/-- C1 is refuted at a concrete input: operating the control unit on the NOP
instruction leaves ctrlAluSrc at its previous value 1; it is not forced to 0
(only RegWrite, MemWrite, MemRead, Branch, UseRegBase and IsJump are). -/
theorem controlUnit_nop_claim_counterexample :
    (controlUnitOperate 0 0 0 c1StaleSignals RegisterFile.init).map
        (fun p => p.1.ctrlAluSrc) = .ok 1 ∧ (1 : Word) ≠ 0 := by
  constructor
  · rfl
  · decide

/-- C1 (amended): on the all-zeros NOP instruction, ControlUnit::operate
drives RegWrite, MemWrite, MemRead, Branch, UseRegBase and IsJump to 0,
leaves AluSrc, AluOp and MemToReg unchanged, and does not touch the register
file. -/
theorem controlUnit_nop_zeroes_destructive_signals (pc wr : Word)
    (out : ControlSignals) (regs : RegisterFile) :
    controlUnitOperate 0 pc wr out regs =
      .ok ({ out with
              ctrlRegWrite := 0, ctrlMemWrite := 0, ctrlMemRead := 0,
              ctrlBranch := 0, ctrlUseRegBase := 0, ctrlIsJump := 0 }, regs) := rfl

/-! Claim C2: order of unit execution in executeOneCycle. -/

/-- C2 is refuted on the concrete processor built with forwarding enabled:
the data-hazard detection unit's operate does not precede the buffered
latches' bufferInputs in the executeOneCycle trace (it comes after them,
because registerUnits puts all three hazard/forwarding units at the end of
syncedUnits and leaves priorityUnits empty). -/
theorem executeOneCycle_priority_claim_counterexample :
    ¬ ((executeOneCycleTrace (registerUnits true)).indexOf
          (PhaseEvent.operate UnitId.hazardDetectionUnit)
        < (executeOneCycleTrace (registerUnits true)).indexOf
          (PhaseEvent.bufferInputs UnitId.MEM_WB)) ∧
    (registerUnits true).priorityUnits = [] := by
  constructor
  · decide
  · rfl

/-- C2 (amended): PipelinedProcessor::registerUnits leaves priorityUnits
empty and registers the data-hazard detection unit, the memory-hazard
detection unit and (when forwarding is enabled) the forwarding unit at the
end of syncedUnits, in that order; hence in every executeOneCycle call they
run after every buffered unit's bufferInputs and after all other clocked
units' operate calls, with hazard detection before forwarding. -/
theorem executeOneCycle_unit_order :
    (registerUnits true).priorityUnits = [] ∧
    (registerUnits false).priorityUnits = [] ∧
    executeOneCycleTrace (registerUnits true) =
      [PhaseEvent.bufferInputs UnitId.MEM_WB, PhaseEvent.bufferInputs UnitId.issueUnit,
       PhaseEvent.operate UnitId.EX_MEM, PhaseEvent.operate UnitId.dataMemory,
       PhaseEvent.operate UnitId.ID_EX, PhaseEvent.operate UnitId.IF_ID,
       PhaseEvent.operate UnitId.issueUnit, PhaseEvent.operate UnitId.MEM_WB,
       PhaseEvent.operate UnitId.hazardDetectionUnit,
       PhaseEvent.operate UnitId.memHazardUnit,
       PhaseEvent.operate UnitId.forwardingUnit] ∧
    executeOneCycleTrace (registerUnits false) =
      [PhaseEvent.bufferInputs UnitId.MEM_WB, PhaseEvent.bufferInputs UnitId.issueUnit,
       PhaseEvent.operate UnitId.EX_MEM, PhaseEvent.operate UnitId.dataMemory,
       PhaseEvent.operate UnitId.ID_EX, PhaseEvent.operate UnitId.IF_ID,
       PhaseEvent.operate UnitId.issueUnit, PhaseEvent.operate UnitId.MEM_WB,
       PhaseEvent.operate UnitId.hazardDetectionUnit,
       PhaseEvent.operate UnitId.memHazardUnit] :=
  ⟨rfl, rfl, rfl, rfl⟩

/-! Claim C3: register x0 is hardwired to zero. -/

theorem applyWrites_reg0 : ∀ (ws : List (Nat × Word)) (rf rf' : RegisterFile),
    rf.regs.getD 0 0 = 0 → rf.applyWrites ws = .ok rf' → rf'.regs.getD 0 0 = 0 := by
  intro ws
  induction ws with
  | nil =>
    intro rf rf' h hok
    cases hok
    exact h
  | cons w ws ih =>
    intro rf rf' h hok
    rcases w with ⟨n, v⟩
    unfold RegisterFile.applyWrites at hok
    unfold RegisterFile.writeRegister at hok
    by_cases h32 : 32 ≤ n
    · simp [h32] at hok
    · by_cases h0 : n = 0
      · simp [h32, h0] at hok
        exact ih rf rf' h hok
      · simp [h32, h0] at hok
        refine ih _ rf' ?_ hok
        show (rf.regs.set n v).getD 0 0 = 0
        rw [getD_set_ne rf.regs n 0 v h0]
        exact h

/-- C3: for every sequence of writeRegister calls on the integer register
file (including any number of writes to index 0), reading register 0 returns
0; moreover a write to index 0 leaves all 32 registers unchanged. -/
theorem registerFile_x0_is_zero :
    (∀ (ws : List (Nat × Word)) (rf : RegisterFile),
        RegisterFile.init.applyWrites ws = .ok rf → rf.readRegister 0 = .ok 0) ∧
    (∀ (rf : RegisterFile) (v : Word), rf.writeRegister 0 v = .ok rf) := by
  constructor
  · intro ws rf hok
    have h0 : rf.regs.getD 0 0 = 0 :=
      applyWrites_reg0 ws RegisterFile.init rf (by decide) hok
    unfold RegisterFile.readRegister
    rw [if_neg (by omega), h0]
  · intro rf v
    simp [RegisterFile.writeRegister]

/-- C3 witness: a concrete write sequence (two discarded writes to x0 and a
write to x3) after which register 0 still reads as 0. -/
theorem registerFile_x0_is_zero_witness :
    (RegisterFile.mk ((List.replicate 32 0).set 3 7)).readRegister 0 = .ok 0 :=
  registerFile_x0_is_zero.1 [(0, 5), (3, 7), (0, 9)]
    (RegisterFile.mk ((List.replicate 32 0).set 3 7)) (by rfl)

/-! Claim C9: data-hazard detection conditions. -/

/-- C9: the data-hazard detection unit drives shouldFreezeIssue and
shouldFlushIF_ID with the same stall bit, and the stall bit is 1 exactly
when with forwarding the ID/EX inputs hold MemRead set and the ID/EX
destination equals rs1 or rs2 of the IF/ID instruction, and without
forwarding when ID/EX or EX/MEM holds RegWrite set with a non-zero
destination equal to rs1 or rs2. -/
theorem dataHazard_stall_iff (u : DataHazardInputs) :
    (dataHazardDetectionOperate u).2 = (dataHazardDetectionOperate u).1 ∧
    ((dataHazardDetectionOperate u).1 = 1 ↔
      (if u.isForwarding then
        u.ID_EX_ctrlMemReadIn ≠ 0 ∧
          (extractBits u.IF_ID_instructionIn 15 19 = u.ID_EX_writeRegisterIn ∨
           extractBits u.IF_ID_instructionIn 20 24 = u.ID_EX_writeRegisterIn)
      else
        (u.ID_EX_ctrlRegWriteIn ≠ 0 ∧ u.ID_EX_writeRegisterIn ≠ 0 ∧
          (extractBits u.IF_ID_instructionIn 15 19 = u.ID_EX_writeRegisterIn ∨
           extractBits u.IF_ID_instructionIn 20 24 = u.ID_EX_writeRegisterIn)) ∨
        (u.EX_MEM_ctrlRegWriteIn ≠ 0 ∧ u.EX_MEM_writeRegisterIn ≠ 0 ∧
          (extractBits u.IF_ID_instructionIn 15 19 = u.EX_MEM_writeRegisterIn ∨
           extractBits u.IF_ID_instructionIn 20 24 = u.EX_MEM_writeRegisterIn)))) := by
  constructor
  · rfl
  · unfold dataHazardDetectionOperate hasDataHazard boolToWord
    cases hf : u.isForwarding <;>
      simp [hf, Bool.and_eq_true, Bool.or_eq_true, and_assoc] <;>
      tauto

/-! Claim C10: same-cycle write-before-read in the register file unit. -/

/-- C10: inside one RegisterFileUnit::operate call with the write control
asserted, the write of writeData into a valid non-zero writeRegister
completes before the reads, so a read of the same register in the same call
is driven with the newly written value. -/
theorem registerFileUnit_write_before_read (s : RegisterFileUnitState)
    (hw : s.ctrlRegWrite ≠ 0) (hnz : s.writeRegister ≠ 0)
    (hwr : s.writeRegister < 32) (hr1 : s.readRegister1 < 32)
    (hr2 : s.readRegister2 < 32) (hlen : s.intRegs.regs.length = 32) :
    ∃ out, registerFileUnitOperate s = .ok out ∧
      (s.readRegister1 = s.writeRegister → out.readData1 = s.writeData) ∧
      (s.readRegister2 = s.writeRegister → out.readData2 = s.writeData) := by
  have h32 : ¬ 32 ≤ s.writeRegister := Nat.not_le.mpr hwr
  have h321 : ¬ 32 ≤ s.readRegister1 := Nat.not_le.mpr hr1
  have h322 : ¬ 32 ≤ s.readRegister2 := Nat.not_le.mpr hr2
  unfold registerFileUnitOperate RegisterFile.writeRegister RegisterFile.readRegister
  rw [if_pos hw, if_neg h32, if_neg hnz]
  dsimp only
  rw [if_neg h321, if_neg h322]
  dsimp only
  refine ⟨_, rfl, ?_, ?_⟩
  · intro h1
    show (s.intRegs.regs.set s.writeRegister s.writeData).getD s.readRegister1 0 = s.writeData
    rw [h1]
    exact getD_set_self s.intRegs.regs s.writeRegister s.writeData (by rw [hlen]; exact hwr)
  · intro h2
    show (s.intRegs.regs.set s.writeRegister s.writeData).getD s.readRegister2 0 = s.writeData
    rw [h2]
    exact getD_set_self s.intRegs.regs s.writeRegister s.writeData (by rw [hlen]; exact hwr)

/-- C10 witness: writing 99 to register 5 while reading register 5 in the
same operate call yields 99 on readData1. -/
theorem registerFileUnit_write_before_read_witness :
    ∃ out, registerFileUnitOperate ⟨5, 6, 5, 99, 1, RegisterFile.init⟩ = .ok out ∧
      ((5 : Word) = 5 → out.readData1 = 99) ∧ ((6 : Word) = 5 → out.readData2 = 99) :=
  registerFileUnit_write_before_read ⟨5, 6, 5, 99, 1, RegisterFile.init⟩
    (by decide) (by decide) (by decide) (by decide) (by decide) (by decide)

/-! Claim C4: immediate generator formats. -/

theorem toWord32_ofNat (n : Nat) (h : n < 2 ^ 32) : toWord32 (Int.ofNat n) = n := by
  unfold toWord32
  have h2 : Int.ofNat n < Int.ofNat (2 ^ 32) := Int.ofNat_lt.mpr h
  have h1 : Int.ofNat n % (2 ^ 32 : Int) = Int.ofNat n :=
    Int.emod_eq_of_lt (Int.ofNat_nonneg n) (by exact_mod_cast h2)
  rw [h1]
  rfl

theorem immediateGenerator_formats :
    (∀ (w prev : Word),
        (opcode w = aluIFmtOpcode ∨ opcode w = loadIFmtOpcode ∨ opcode w = jalrIFmtOpcode) →
        immediateGeneratorOperate w prev =
          .ok (toWord32 (signExtend 12 (extractBits w 20 31)))) ∧
    (∀ (w prev : Word), (opcode w = SFmtOpcode ∨ opcode w = SBFmtOpcode) →
        immediateGeneratorOperate w prev =
          .ok (toWord32 (signExtend 12 ((extractBits w 25 31 <<< 5) ||| extractBits w 7 11)))) ∧
    (∀ (w prev : Word), opcode w = UFmtOpcode →
        immediateGeneratorOperate w prev = .ok (extractBits w 12 31 <<< 12)) ∧
    (∀ (w prev : Word), opcode w = UJFmtOpcode →
        immediateGeneratorOperate w prev =
          .ok (toWord32 (signExtend 20 (extractBits w 12 31)))) ∧
    (∀ prev : Word, immediateGeneratorOperate 0 prev = .ok prev) := by
  have hnop : ∀ (w : Word) (c : Nat), opcode w = c → c ≠ 0 → ¬ (isNop w = true) := by
    intro w c hc hcne hn
    simp [isNop] at hn
    rw [hn] at hc
    exact hcne (hc.symm.trans (show opcode 0 = 0 by decide))
  refine ⟨?_, ?_, ?_, ?_, ?_⟩
  · intro w prev h
    rcases h with h | h | h <;>
    · have hf : fmt (opcode w) = .ok InstructionFmt.I := by rw [h]; rfl
      unfold immediateGeneratorOperate
      rw [if_neg (hnop w _ h (by decide)), hf]
  · intro w prev h
    have hadd : (extractBits w 25 31 <<< 5) ||| extractBits w 7 11 =
        (extractBits w 25 31 <<< 5) + extractBits w 7 11 :=
      lor_shiftLeft_eq_add 5 _ _ (extractBits_lt w 7 11)
    rcases h with h | h
    · have hf : fmt (opcode w) = .ok InstructionFmt.S := by rw [h]; rfl
      unfold immediateGeneratorOperate
      rw [if_neg (hnop w _ h (by decide)), hf, hadd]
    · have hf : fmt (opcode w) = .ok InstructionFmt.SB := by rw [h]; rfl
      unfold immediateGeneratorOperate
      rw [if_neg (hnop w _ h (by decide)), hf, hadd]
  · intro w prev h
    have hf : fmt (opcode w) = .ok InstructionFmt.U := by rw [h]; rfl
    have hlt : extractBits w 12 31 <<< 12 < 2 ^ 32 := by
      have h20 : extractBits w 12 31 < 2 ^ 20 := extractBits_lt w 12 31
      rw [Nat.shiftLeft_eq]
      calc extractBits w 12 31 * 2 ^ 12 < 2 ^ 20 * 2 ^ 12 := by
            exact Nat.mul_lt_mul_of_lt_of_le h20 (Nat.le_refl _) (by norm_num)
        _ = 2 ^ 32 := by norm_num
    unfold immediateGeneratorOperate
    rw [if_neg (hnop w _ h (by decide)), hf]
    rw [toWord32_ofNat _ hlt]
  · intro w prev h
    have hf : fmt (opcode w) = .ok InstructionFmt.UJ := by rw [h]; rfl
    unfold immediateGeneratorOperate
    rw [if_neg (hnop w _ h (by decide)), hf]
  · intro prev
    rfl

/-- C4 witness: concrete instructions of each format (bare opcodes decode to
the format with all immediate bits zero) and the NOP. -/
theorem immediateGenerator_formats_witness :
    immediateGeneratorOperate 19 7 =
      .ok (toWord32 (signExtend 12 (extractBits 19 20 31))) ∧
    immediateGeneratorOperate 35 7 =
      .ok (toWord32 (signExtend 12 ((extractBits 35 25 31 <<< 5) ||| extractBits 35 7 11))) ∧
    immediateGeneratorOperate 55 7 = .ok (extractBits 55 12 31 <<< 12) ∧
    immediateGeneratorOperate 111 7 =
      .ok (toWord32 (signExtend 20 (extractBits 111 12 31))) :=
  ⟨immediateGenerator_formats.1 19 7 (Or.inl (by decide)),
   immediateGenerator_formats.2.1 35 7 (Or.inl (by decide)),
   immediateGenerator_formats.2.2.1 55 7 (by decide),
   immediateGenerator_formats.2.2.2.1 111 7 (by decide)⟩

/-! Claims C5 and C6: TimedMainMemory latency and the TimedMemory state
machine. -/

theorem addr_shift_bound (addr n as : Nat) (hn : 1 ≤ n) (hal : isAligned addr n = true)
    (hb : addr + nbytes n ≤ 2 ^ as) : addr >>> 2 + n ≤ 2 ^ (as - 2) := by
  have hmod : addr % (n * 4) = 0 := by simpa [isAligned, nbytes] using hal
  have h4 : 4 ∣ addr := dvd_trans ⟨n, by ring⟩ (Nat.dvd_of_mod_eq_zero hmod)
  have hshift : addr >>> 2 = addr / 4 := by
    rw [Nat.shiftRight_eq_div_pow]
  unfold nbytes at hb
  rcases Nat.lt_or_ge as 2 with has | has
  · exfalso
    have h2 : 2 ^ as ≤ 2 ^ 1 := Nat.pow_le_pow_right (by norm_num) (by omega)
    omega
  · have hpow : 2 ^ as = 2 ^ (as - 2) * 4 := by
      rw [show as = as - 2 + 2 by omega, pow_add]
      norm_num
    obtain ⟨a, ha⟩ := h4
    rw [hshift]
    omega

/-- State of a TimedMainMemory after k + 1 incomplete calls of an in-flight
read request. -/
def midReadState (m : TimedMainMemory) (addr n k : Nat) : TimedMainMemory :=
  { m with state := MemoryState.Reading, curAddr := addr,
           readGen := some ⟨addr, n, k + 1⟩ }

theorem readCallN_progress (m : TimedMainMemory) (addr n : Nat)
    (hready : m.state = MemoryState.Ready)
    (hal : isAligned addr n = true) (hb : addr + nbytes n ≤ 2 ^ m.addressSpace) :
    ∀ k, k + 1 < m.latency → readCallN m addr n k = .ok (none, midReadState m addr n k) := by
  intro k
  induction k with
  | zero =>
    intro hk
    show m.readBlock addr n = _
    simp [TimedMainMemory.readBlock, TimedMainMemory.makeReadGen, MainReadGen.resume,
      hready, hal, hb, hk, midReadState]
  | succ k ih =>
    intro hk
    have hk1 : k + 1 < m.latency := by omega
    show (match readCallN m addr n k with
      | Except.error e => Except.error e
      | Except.ok (_, m1) => m1.readBlock addr n) = _
    rw [ih hk1]
    simp only [midReadState]
    simp [TimedMainMemory.readBlock, MainReadGen.resume, hk]

theorem readCallN_completes (m : TimedMainMemory) (addr n : Nat) (b : List Word)
    (hready : m.state = MemoryState.Ready) (hlat : 1 ≤ m.latency)
    (hal : isAligned addr n = true) (hb : addr + nbytes n ≤ 2 ^ m.addressSpace)
    (hsub : getSubblock? m.storage (addr >>> 2) n = some b) :
    readCallN m addr n (m.latency - 1) =
      .ok (some b, { m with state := MemoryState.Ready, curAddr := addr,
                            readGen := some ⟨addr, n, m.latency⟩ }) := by
  rcases Nat.lt_or_ge 1 m.latency with hlat2 | hlat2
  · obtain ⟨k, hk⟩ : ∃ k, m.latency = k + 2 := ⟨m.latency - 2, by omega⟩
    rw [show m.latency - 1 = k + 1 by omega]
    show (match readCallN m addr n k with
      | Except.error e => Except.error e
      | Except.ok (_, m1) => m1.readBlock addr n) = _
    rw [readCallN_progress m addr n hready hal hb k (by omega)]
    simp only [midReadState]
    have hstop : ¬ (k + 1 + 1 < m.latency) := by omega
    simp [TimedMainMemory.readBlock, MainReadGen.resume, hstop, hsub, hk]
  · have hl1 : m.latency = 1 := by omega
    rw [show m.latency - 1 = 0 by omega]
    show m.readBlock addr n = _
    have hstop : ¬ (0 + 1 < m.latency) := by omega
    simp [TimedMainMemory.readBlock, TimedMainMemory.makeReadGen, MainReadGen.resume,
      hready, hal, hb, hstop, hsub, hl1]

/-- State of a TimedMainMemory after k + 1 incomplete calls of an in-flight
write request. -/
def midWriteState (m : TimedMainMemory) (addr : Nat) (block : List Word) (k : Nat) :
    TimedMainMemory :=
  { m with state := MemoryState.Writing, curAddr := addr,
           writeGen := some ⟨addr, block, k + 1⟩ }

theorem writeCallN_progress (m : TimedMainMemory) (addr : Nat) (block : List Word)
    (hready : m.state = MemoryState.Ready)
    (hal : isAligned addr block.length = true)
    (hb : addr + nbytes block.length ≤ 2 ^ m.addressSpace) :
    ∀ k, k + 1 < m.latency →
      writeCallN m addr block k = .ok (false, midWriteState m addr block k) := by
  intro k
  induction k with
  | zero =>
    intro hk
    show m.writeBlock addr block = _
    simp [TimedMainMemory.writeBlock, TimedMainMemory.makeWriteGen, MainWriteGen.resume,
      hready, hal, hb, hk, midWriteState]
  | succ k ih =>
    intro hk
    have hk1 : k + 1 < m.latency := by omega
    show (match writeCallN m addr block k with
      | Except.error e => Except.error e
      | Except.ok (_, m1) => m1.writeBlock addr block) = _
    rw [ih hk1]
    simp only [midWriteState]
    simp [TimedMainMemory.writeBlock, MainWriteGen.resume, hk]

theorem writeCallN_completes (m : TimedMainMemory) (addr : Nat) (block : List Word)
    (st : List Word)
    (hready : m.state = MemoryState.Ready) (hlat : 1 ≤ m.latency)
    (hal : isAligned addr block.length = true)
    (hb : addr + nbytes block.length ≤ 2 ^ m.addressSpace)
    (hsub : setSubblock? m.storage (addr >>> 2) block = some st) :
    writeCallN m addr block (m.latency - 1) =
      .ok (true, { m with state := MemoryState.Ready, curAddr := addr, storage := st,
                          writeGen := some ⟨addr, block, m.latency⟩ }) := by
  rcases Nat.lt_or_ge 1 m.latency with hlat2 | hlat2
  · obtain ⟨k, hk⟩ : ∃ k, m.latency = k + 2 := ⟨m.latency - 2, by omega⟩
    rw [show m.latency - 1 = k + 1 by omega]
    show (match writeCallN m addr block k with
      | Except.error e => Except.error e
      | Except.ok (_, m1) => m1.writeBlock addr block) = _
    rw [writeCallN_progress m addr block hready hal hb k (by omega)]
    simp only [midWriteState]
    have hstop : ¬ (k + 1 + 1 < m.latency) := by omega
    simp [TimedMainMemory.writeBlock, MainWriteGen.resume, hstop, hsub, hk]
  · have hl1 : m.latency = 1 := by omega
    rw [show m.latency - 1 = 0 by omega]
    show m.writeBlock addr block = _
    have hstop : ¬ (0 + 1 < m.latency) := by omega
    simp [TimedMainMemory.writeBlock, TimedMainMemory.makeWriteGen, MainWriteGen.resume,
      hready, hal, hb, hstop, hsub, hl1]

theorem getSubblock?_of_le (words : List Word) (f len : Nat) (h : f + len ≤ words.length) :
    getSubblock? words f len = some ((words.drop f).take len) := by
  simp [getSubblock?, h]

theorem setSubblock?_of_le (words : List Word) (f : Nat) (b : List Word)
    (h : f + b.length ≤ words.length) :
    setSubblock? words f b = some (words.take f ++ b ++ words.drop (f + b.length)) := by
  simp [setSubblock?, h]

/-- C5: from the Ready state, an aligned in-bounds readBlock repeated each
cycle with the same arguments returns none on the first latency - 1 calls and
the requested sub-block on the latency-th call, leaving the memory Ready with
unchanged storage; writeBlock likewise returns false on the first
latency - 1 calls, then stores the block and returns true. -/
theorem timedMainMemory_latency (m : TimedMainMemory) (addr n : Nat) (block : List Word)
    (hready : m.state = MemoryState.Ready) (hlat : 1 ≤ m.latency)
    (hlen : m.storage.length = 2 ^ (m.addressSpace - 2)) :
    ((1 ≤ n → isAligned addr n = true → addr + nbytes n ≤ 2 ^ m.addressSpace →
        (∀ k, k + 1 < m.latency → ∃ mk, readCallN m addr n k = .ok (none, mk)) ∧
        (∃ b mf, getSubblock? m.storage (addr >>> 2) n = some b ∧
          readCallN m addr n (m.latency - 1) = .ok (some b, mf) ∧
          mf.state = MemoryState.Ready ∧ mf.storage = m.storage)) ∧
     (1 ≤ block.length → isAligned addr block.length = true →
        addr + nbytes block.length ≤ 2 ^ m.addressSpace →
        (∀ k, k + 1 < m.latency →
          ∃ mk, writeCallN m addr block k = .ok (false, mk) ∧ mk.storage = m.storage) ∧
        (∃ st mf, setSubblock? m.storage (addr >>> 2) block = some st ∧
          writeCallN m addr block (m.latency - 1) = .ok (true, mf) ∧
          mf.state = MemoryState.Ready ∧ mf.storage = st))) := by
  constructor
  · intro hn hal hb
    have hbound : addr >>> 2 + n ≤ m.storage.length := by
      rw [hlen]
      exact addr_shift_bound addr n m.addressSpace hn hal hb
    constructor
    · intro k hk
      exact ⟨_, readCallN_progress m addr n hready hal hb k hk⟩
    · refine ⟨(m.storage.drop (addr >>> 2)).take n, _, getSubblock?_of_le _ _ _ hbound,
        readCallN_completes m addr n _ hready hlat hal hb (getSubblock?_of_le _ _ _ hbound),
        rfl, rfl⟩
  · intro hn hal hb
    have hbound : addr >>> 2 + block.length ≤ m.storage.length := by
      rw [hlen]
      exact addr_shift_bound addr block.length m.addressSpace hn hal hb
    constructor
    · intro k hk
      exact ⟨_, writeCallN_progress m addr block hready hal hb k hk, rfl⟩
    · refine ⟨_, _, setSubblock?_of_le _ _ _ hbound,
        writeCallN_completes m addr block _ hready hlat hal hb (setSubblock?_of_le _ _ _ hbound),
        rfl, rfl⟩

/-- C6 (amended): while an operation is in flight every call must pass the
same address as the first call (asserted), but the length or block argument
of later calls is ignored entirely; starting a read while Writing (or a write
while Reading) asserts; and any call that completes its operation returns a
memory in the Ready state. -/
theorem timedMemory_state_machine :
    (∀ (m : TimedMainMemory) (addr n1 n2 : Nat), m.state = MemoryState.Reading →
        m.readBlock addr n1 = m.readBlock addr n2) ∧
    (∀ (m : TimedMainMemory) (addr : Nat) (b1 b2 : List Word), m.state = MemoryState.Writing →
        m.writeBlock addr b1 = m.writeBlock addr b2) ∧
    (∀ (m : TimedMainMemory) (addr n : Nat), m.state = MemoryState.Reading →
        m.curAddr ≠ addr → m.readBlock addr n = .error ()) ∧
    (∀ (m : TimedMainMemory) (addr : Nat) (b : List Word), m.state = MemoryState.Writing →
        m.curAddr ≠ addr → m.writeBlock addr b = .error ()) ∧
    (∀ (m : TimedMainMemory) (addr n : Nat), m.state = MemoryState.Writing →
        m.readBlock addr n = .error ()) ∧
    (∀ (m : TimedMainMemory) (addr : Nat) (b : List Word), m.state = MemoryState.Reading →
        m.writeBlock addr b = .error ()) ∧
    (∀ (m : TimedMainMemory) (addr n : Nat) (r : List Word) (m2 : TimedMainMemory),
        m.readBlock addr n = .ok (some r, m2) → m2.state = MemoryState.Ready) ∧
    (∀ (m : TimedMainMemory) (addr : Nat) (b : List Word) (m2 : TimedMainMemory),
        m.writeBlock addr b = .ok (true, m2) → m2.state = MemoryState.Ready) := by
  refine ⟨?_, ?_, ?_, ?_, ?_, ?_, ?_, ?_⟩
  · intro m addr n1 n2 h
    simp [TimedMainMemory.readBlock, h]
  · intro m addr b1 b2 h
    simp [TimedMainMemory.writeBlock, h]
  · intro m addr n h hne
    simp [TimedMainMemory.readBlock, h, hne]
  · intro m addr b h hne
    simp [TimedMainMemory.writeBlock, h, hne]
  · intro m addr n h
    simp [TimedMainMemory.readBlock, h]
  · intro m addr b h
    simp [TimedMainMemory.writeBlock, h]
  · intro m addr n r m2 h
    unfold TimedMainMemory.readBlock at h
    split at h
    · cases h
    · split at h
      · split at h
        · cases h
        · rename_i g0 heq
          dsimp only at h
          rcases hres : g0.resume m.latency m.storage with e | ⟨result, g1⟩ <;> rw [hres] at h
          · cases h
          · dsimp only at h
            split at h <;> simp_all
            rw [← h.2]
      · cases h
  · intro m addr b m2 h
    unfold TimedMainMemory.writeBlock at h
    split at h
    · cases h
    · split at h
      · split at h
        · cases h
        · rename_i g0 heq
          dsimp only at h
          rcases hres : g0.resume m.latency m.storage with e | ⟨result, st1, g1⟩ <;> rw [hres] at h
          · cases h
          · dsimp only at h
            split at h <;> simp_all
            rw [← h]
      · cases h

/-- C5 witness: a latency-2 memory serves a one-word read at address 0 in
exactly two calls. -/
theorem timedMainMemory_latency_witness :
    (∀ k, k + 1 < (TimedMainMemory.make 4 2).latency →
      ∃ mk, readCallN (TimedMainMemory.make 4 2) 0 1 k = .ok (none, mk)) ∧
    (∃ b mf, getSubblock? (TimedMainMemory.make 4 2).storage (0 >>> 2) 1 = some b ∧
      readCallN (TimedMainMemory.make 4 2) 0 1 ((TimedMainMemory.make 4 2).latency - 1) =
        .ok (some b, mf) ∧ mf.state = MemoryState.Ready ∧
      mf.storage = (TimedMainMemory.make 4 2).storage) :=
  (timedMainMemory_latency (TimedMainMemory.make 4 2) 0 1 [7] rfl (by decide)
    (by decide)).1 (by decide) (by decide) (by decide)

def c6Mem : TimedMainMemory := TimedMainMemory.make 4 2

def c6SecondCall : Except Unit (Option (List Word) × TimedMainMemory) :=
  match c6Mem.readBlock 0 2 with
  | .error e => .error e
  | .ok (_, m1) => m1.readBlock 0 1

/-- C6 is refuted at a concrete input: on a latency-2 memory, the first call
readBlock(0, 2) starts the operation and the second call passes a different
length, readBlock(0, 1); the claim demands an assertion failure, but the call
succeeds and returns the two-word block of the first request (the in-flight
assertion checks only the address, never the length). -/
theorem timedMemory_length_check_counterexample :
    c6SecondCall.map (fun p => p.1) = .ok (some [0, 0]) := by rfl

/-- Concrete memory stuck in the Writing state. -/
def c6WritingMem : TimedMainMemory :=
  { TimedMainMemory.make 4 2 with state := MemoryState.Writing }

/-- Concrete memory stuck in the Reading state. -/
def c6ReadingMem : TimedMainMemory :=
  { TimedMainMemory.make 4 2 with state := MemoryState.Reading }

/-- Concrete state of TimedMainMemory.make 4 1 after a completed one-call read. -/
def c6DoneMem : TimedMainMemory :=
  { TimedMainMemory.make 4 1 with
      state := MemoryState.Ready, curAddr := 0, readGen := some ⟨0, 1, 1⟩ }

/-- C6 witness: concrete instances of the state-machine facts. -/
theorem timedMemory_state_machine_witness :
    c6WritingMem.readBlock 0 1 = .error () ∧
    c6ReadingMem.writeBlock 0 [5] = .error () ∧
    c6DoneMem.state = MemoryState.Ready :=
  ⟨timedMemory_state_machine.2.2.2.2.1 _ 0 1 rfl,
   timedMemory_state_machine.2.2.2.2.2.1 _ 0 [5] rfl,
   timedMemory_state_machine.2.2.2.2.2.2.1 (TimedMainMemory.make 4 1) 0 1 [0] _ (by rfl)⟩

/-! Claims C7 and C8: TimedCache write schemes and the lower memory. -/

theorem setSubblock?_bounds (l st b : List Word) (f : Nat)
    (h : setSubblock? l f b = some st) :
    f + b.length ≤ l.length ∧ st.length = l.length ∧
      st = l.take f ++ b ++ l.drop (f + b.length) := by
  unfold setSubblock? at h
  split at h
  · rename_i hle
    injection h with h1
    refine ⟨hle, ?_, h1.symm⟩
    subst h1
    simp [List.length_take, List.length_drop]
    omega
  · cases h

theorem getSubblock?_of_setSubblock? (l st b : List Word) (f : Nat)
    (h : setSubblock? l f b = some st) :
    getSubblock? st f b.length = some b := by
  obtain ⟨hle, hlen, hst⟩ := setSubblock?_bounds l st b f h
  have htake : (l.take f).length = f := by
    simp [List.length_take]
    omega
  unfold getSubblock?
  rw [if_pos (by omega)]
  obtain ⟨t, ht, hlent⟩ : ∃ t, l.take f = t ∧ t.length = f := ⟨_, rfl, htake⟩
  rw [hst, ht, List.append_assoc, ← hlent, List.drop_left]
  rw [List.take_left' rfl]

/-- C7: for a WriteThrough cache, after a writeBlock of block V at an aligned
address A has completed, reading the backing lower memory at A yields V. -/
theorem cacheWriteThrough_writes_lower (c : TimedCache) (low : TimedMainMemory)
    (r addr : Nat) (block : List Word) (res : CacheWriteResult)
    (hs : c.scheme = WriteScheme.WriteThrough)
    (hok : cacheMakeWriteRun c low r addr block = .ok res) :
    lowerReadRun res.low addr block.length = .ok (res.low.latency, block) := by
  unfold cacheMakeWriteRun at hok
  rw [hs] at hok
  split at hok
  case isFalse => cases hok
  case isTrue hcond =>
    dsimp only at hok
    have hWTne : ¬ (WriteScheme.WriteThrough = WriteScheme.WriteBack ∧
        c.findCacheEntry addr = none) := by simp
    rw [if_neg hWTne] at hok
    dsimp only at hok
    rcases hfind : c.findCacheEntry addr with _ | i <;> rw [hfind] at hok <;>
      dsimp only at hok
    · rcases hlw : lowerWriteRun low addr block with e | ⟨calls, low2⟩ <;>
        rw [hlw] at hok <;> dsimp only at hok
      · cases hok
      · injection hok with h1
        rw [← h1]
        dsimp only
        unfold lowerWriteRun at hlw
        split at hlw
        case isFalse => cases hlw
        case isTrue hcw =>
          rcases hsets : setSubblock? low.storage (addr >>> 2) block with _ | st <;>
            rw [hsets] at hlw
          · cases hlw
          · injection hlw with h2
            have hl2 : ({ low with storage := st } : TimedMainMemory) = low2 :=
              congrArg Prod.snd h2
            subst hl2
            unfold lowerReadRun
            dsimp only
            rw [if_pos hcw]
            rw [getSubblock?_of_setSubblock? low.storage st block (addr >>> 2) hsets]
    · rcases hset2 : setSubblock? (c.entries.getD i default).block
          ((addr % nbytes c.blockSize) >>> 2) block with _ | nb <;>
        rw [hset2] at hok <;> dsimp only at hok
      · cases hok
      · rcases hlw : lowerWriteRun low addr block with e | ⟨calls, low2⟩ <;>
          rw [hlw] at hok <;> dsimp only at hok
        · cases hok
        · injection hok with h1
          rw [← h1]
          dsimp only
          unfold lowerWriteRun at hlw
          split at hlw
          case isFalse => cases hlw
          case isTrue hcw =>
            rcases hsets : setSubblock? low.storage (addr >>> 2) block with _ | st <;>
              rw [hsets] at hlw
            · cases hlw
            · injection hlw with h2
              have hl2 : ({ low with storage := st } : TimedMainMemory) = low2 :=
                congrArg Prod.snd h2
              subst hl2
              unfold lowerReadRun
              dsimp only
              rw [if_pos hcw]
              rw [getSubblock?_of_setSubblock? low.storage st block (addr >>> 2) hsets]

theorem cacheReadFinish_spec (c : TimedCache) (low : TimedMainMemory)
    (yields : List (Option (List Word))) (lws : List (Nat × List Word))
    (i addr n : Nat) (res : CacheReadResult)
    (h : cacheReadFinish c low yields lws i addr n = .ok res) :
    res.lowWrites = lws ∧ res.low = low := by
  unfold cacheReadFinish at h
  dsimp only at h
  split at h
  · cases h
  · injection h with h1
    rw [← h1]
    exact ⟨rfl, rfl⟩

theorem cacheMakeReadRun_lowWrites (c : TimedCache) (low : TimedMainMemory)
    (r addr n : Nat) (res : CacheReadResult)
    (hs : c.scheme = WriteScheme.WriteBack)
    (hok : cacheMakeReadRun c low r addr n = .ok res) :
    res.lowWrites =
      (match c.findCacheEntry addr with
       | some _ => []
       | none =>
         match c.freeSlot (c.indexBits addr) with
         | some _ => []
         | none =>
           let v := c.selectEvictionIndex (c.indexBits addr)
                      (c.indexBits addr * c.setSize) r
           let ev := c.entries.getD v default
           if ev.dirty then
             [((ev.tag <<< (c.blockBitCount + 2 + c.indexBitCount)) |||
               ((v / c.setSize) <<< (c.blockBitCount + 2)), ev.block)]
           else []) ∧
    (res.lowWrites = [] → res.low = low) := by
  unfold cacheMakeReadRun at hok
  split at hok
  case isFalse => cases hok
  case isTrue hcond =>
    dsimp only at hok
    rcases hfind : c.findCacheEntry addr with _ | eIdx <;> rw [hfind] at hok <;>
      dsimp only at hok
    case none =>
      unfold cacheChooseVictim at hok
      dsimp only at hok
      rcases hfree : c.freeSlot (c.indexBits addr) with _ | fIdx <;>
        rw [hfree] at hok <;> dsimp only at hok
      case none =>
        rw [hs] at hok
        by_cases hd : (c.entries.getD
            (c.selectEvictionIndex (c.indexBits addr) (c.indexBits addr * c.setSize) r)
            default).dirty
        · rw [if_pos ⟨rfl, hd⟩] at hok
          rcases hlw : lowerWriteRun low _ _ with e | ⟨calls, low1⟩ <;>
            rw [hlw] at hok <;> dsimp only at hok
          · cases hok
          · rcases hlrr : lowerReadRun low1 _ _ with e | ⟨calls2, blk⟩ <;>
              rw [hlrr] at hok <;> dsimp only at hok
            · cases hok
            · obtain ⟨h1, _⟩ := cacheReadFinish_spec _ _ _ _ _ _ _ _ hok
              refine ⟨?_, ?_⟩
              · rw [h1]
                dsimp only
                rw [if_pos hd]
              · intro hnil
                rw [h1] at hnil
                cases hnil
        · rw [if_neg (fun hcon => hd hcon.2)] at hok
          dsimp only at hok
          rcases hlrr : lowerReadRun low _ _ with e | ⟨calls2, blk⟩ <;>
            rw [hlrr] at hok <;> dsimp only at hok
          · cases hok
          · obtain ⟨h1, h2⟩ := cacheReadFinish_spec _ _ _ _ _ _ _ _ hok
            refine ⟨?_, fun _ => h2⟩
            rw [h1]
            dsimp only
            rw [if_neg hd]
      case some =>
        rcases hlrr : lowerReadRun low _ _ with e | ⟨calls2, blk⟩ <;>
          rw [hlrr] at hok <;> dsimp only at hok
        · cases hok
        · obtain ⟨h1, h2⟩ := cacheReadFinish_spec _ _ _ _ _ _ _ _ hok
          exact ⟨h1, fun _ => h2⟩
    case some =>
      obtain ⟨h1, h2⟩ := cacheReadFinish_spec _ _ _ _ _ _ _ _ hok
      exact ⟨h1, fun _ => h2⟩

/-- C8: for a WriteBack cache, a completed readBlock or writeBlock run issues
no write to the lower memory unless the miss path evicts a dirty line, in
which case the lower memory receives exactly that line's full block at the
base address rebuilt from the entry's tag and its set index, and when no such
eviction happens the lower memory is left untouched. -/
theorem cacheWriteBack_lower_writes (c : TimedCache) (low : TimedMainMemory)
    (r addr n : Nat) (block : List Word) (res : CacheReadResult)
    (resW : CacheWriteResult) (hs : c.scheme = WriteScheme.WriteBack) :
    (cacheMakeReadRun c low r addr n = .ok res →
      res.lowWrites =
        (match c.findCacheEntry addr with
         | some _ => []
         | none =>
           match c.freeSlot (c.indexBits addr) with
           | some _ => []
           | none =>
             let v := c.selectEvictionIndex (c.indexBits addr)
                        (c.indexBits addr * c.setSize) r
             let ev := c.entries.getD v default
             if ev.dirty then
               [((ev.tag <<< (c.blockBitCount + 2 + c.indexBitCount)) |||
                 ((v / c.setSize) <<< (c.blockBitCount + 2)), ev.block)]
             else []) ∧
      (res.lowWrites = [] → res.low = low)) ∧
    (cacheMakeWriteRun c low r addr block = .ok resW →
      resW.lowWrites =
        (match c.findCacheEntry addr with
         | some _ => []
         | none =>
           match c.freeSlot (c.indexBits addr) with
           | some _ => []
           | none =>
             let v := c.selectEvictionIndex (c.indexBits addr)
                        (c.indexBits addr * c.setSize) r
             let ev := c.entries.getD v default
             if ev.dirty then
               [((ev.tag <<< (c.blockBitCount + 2 + c.indexBitCount)) |||
                 ((v / c.setSize) <<< (c.blockBitCount + 2)), ev.block)]
             else []) ∧
      (resW.lowWrites = [] → resW.low = low)) := by
  constructor
  · intro hok
    exact cacheMakeReadRun_lowWrites c low r addr n res hs hok
  · intro hokW
    unfold cacheMakeWriteRun at hokW
    split at hokW
    case isFalse => cases hokW
    case isTrue hcond =>
      dsimp only at hokW
      rw [hs] at hokW
      rcases hfind : c.findCacheEntry addr with _ | i <;> rw [hfind] at hokW
      case none =>
        rw [if_pos ⟨rfl, rfl⟩] at hokW
        rcases hread : cacheMakeReadRun c low r addr c.blockSize with e | ires <;>
          rw [hread] at hokW <;> dsimp only at hokW
        · cases hokW
        · rcases hfind2 : ires.cache.findCacheEntry addr with _ | j <;>
            rw [hfind2] at hokW <;> dsimp only at hokW
          · cases hokW
          · rcases hset2 : setSubblock? (ires.cache.entries.getD j default).block
                ((addr % nbytes ires.cache.blockSize) >>> 2) block with _ | nb <;>
              rw [hset2] at hokW <;> dsimp only at hokW
            · cases hokW
            · rw [if_neg (by intro hcon; cases hcon)] at hokW
              dsimp only at hokW
              injection hokW with h1
              obtain ⟨hlog, hframe⟩ :=
                cacheMakeReadRun_lowWrites c low r addr c.blockSize ires hs hread
              rw [← h1]
              dsimp only
              rw [hfind] at hlog
              exact ⟨hlog, hframe⟩
      case some =>
        rw [if_neg (by intro hcon; cases hcon.2)] at hokW
        dsimp only at hokW
        rcases hset2 : setSubblock? (c.entries.getD i default).block
            ((addr % nbytes c.blockSize) >>> 2) block with _ | nb <;>
          rw [hset2] at hokW <;> dsimp only at hokW
        · cases hokW
        · rw [if_neg (by intro hcon; cases hcon)] at hokW
          dsimp only at hokW
          injection hokW with h1
          rw [← h1]
          exact ⟨rfl, fun _ => rfl⟩

/-- Concrete write-through cache: direct-mapped, 1 word per line, 4 lines,
latency 1, initially empty. -/
def wtCacheC7 : TimedCache :=
  ⟨1, 1, 4, WriteScheme.WriteThrough, ReplacementPolicy.Random, 1,
   List.replicate 4 default, List.replicate 4 [], 0⟩

/-- Lower memory left by the completed write-through of 0xFACADE at 0x4. -/
def c7ResLow : TimedMainMemory :=
  { TimedMainMemory.make 8 1 with storage := 0 :: 16435934 :: List.replicate 62 0 }

/-- Result of the write-through run of 0xFACADE at 0x4 on the empty cache. -/
def c7Res : CacheWriteResult := ⟨[true], wtCacheC7, c7ResLow, [(4, [16435934])]⟩

/-- C7 witness: writing 0xFACADE at 0x4 through the empty write-through cache
leaves 0xFACADE at 0x4 in the lower memory. -/
theorem cacheWriteThrough_writes_lower_witness :
    lowerReadRun c7Res.low 4 1 = .ok (c7Res.low.latency, [16435934]) :=
  cacheWriteThrough_writes_lower wtCacheC7 (TimedMainMemory.make 8 1) 0 4
    [16435934] c7Res rfl (by rfl)

/-- Concrete write-back cache: direct-mapped, 1 word per line, 4 lines,
latency 1, initially empty. -/
def wbCacheC8 : TimedCache :=
  ⟨1, 1, 4, WriteScheme.WriteBack, ReplacementPolicy.Random, 1,
   List.replicate 4 default, List.replicate 4 [], 0⟩

/-- Result of reading one word at 0x4 through the empty write-back cache. -/
def c8Res : CacheReadResult :=
  ⟨[none, some [0]],
   { wbCacheC8 with entries := (List.replicate 4 default).set 1 ⟨true, false, 0, [0], 0⟩ },
   TimedMainMemory.make 8 1, []⟩

/-- C8 witness: a read miss on the empty write-back cache refills from the
lower memory without writing to it. -/
theorem cacheWriteBack_lower_writes_witness :
    c8Res.lowWrites = ([] : List (Nat × List Word)) ∧
    c8Res.low = TimedMainMemory.make 8 1 :=
  have h := (cacheWriteBack_lower_writes wbCacheC8 (TimedMainMemory.make 8 1) 0 4 1
    [0] c8Res ⟨[], wbCacheC8, TimedMainMemory.make 8 1, []⟩ rfl).1 (by rfl)
  ⟨h.1.trans (by rfl), h.2 (h.1.trans (by rfl))⟩

end Jarvs
